import Mathlib

/-!
Verification of the `DiffusionTimeCDF` simulation engine
(`src/pydiffusionCDF.py` of CorwinLab/RWRE-Simulations).

The Python class wraps a compiled recurrence kernel.  The wrapper logic
(capacity check, evolve loops, checkpoint persistence, throttled autosave,
batched quantile ordering, CSV writing) is embedded here directly from the
Python source.  The compiled kernel itself (`diffusionCDF` extension:
recurrence update, `findQuantile`, `getSaveCDF`, `getGumbelVariance`,
`getProbandV`) is not among the inspected sources; those parts are
modelled from the specification and marked `Modelled from the spec:` in
their doc comments.

Extended-precision values (`np.quad`) are embedded as `Rat`: the spec
requires only arithmetic, total ordering and exact textual round-trip of
the numeric collaborator.  File I/O is embedded as a log of structured
write events; the wall clock and the random source are embedded as input
streams consumed reading-by-reading.
-/

namespace RWRE

/-- Error conditions surfaced by the engine.  The Python wrapper raises
`ValueError` at capacity (the spec's `CapacityExceeded`) and asserts the
quantile precondition in `evolveAndGetProbAndV`. -/
inductive EngineError where
  | capacityExceeded
  | assertionFailed
deriving DecidableEq

/-- The scalar/metadata record written by `saveState` (the dict dumped to
`Scalars{id}.json`): fields `time`, `beta`, `tMax`, `id`, `save_dir`. -/
structure Scalars where
  time : Nat
  beta : Rat
  tMax : Nat
  id : Option Int
  saveDir : String
deriving DecidableEq

/-- Contents of a checkpoint file: either the CDF value file (one
extended-precision value per line) or the scalars JSON record.  Both
collaborator formats round-trip exactly per the spec, so they are
embedded as the structured values themselves. -/
inductive FileData where
  | cdfData (values : List Rat)
  | scalarsData (vars : Scalars)
deriving DecidableEq

/-- One durable file write: destination path and contents. -/
structure FileWrite where
  path : String
  data : FileData
deriving DecidableEq

/-- The simulation state owned by one `DiffusionTimeCDF` instance:
`beta`, `tMax`, `time`, the allocated CDF array (length `tMax + 1`),
checkpoint identity `id` / `save_dir`, the autosave bookkeeping
`_last_saved_time` / `_save_interval`, and the state of the seeded
random source, embedded as the stream of its future draws. -/
structure EngineState where
  beta : Rat
  tMax : Nat
  time : Nat
  cdf : List Rat
  id : Option Int
  saveDir : String
  lastSavedTime : Rat
  saveInterval : Rat
  rng : List Rat
deriving DecidableEq

/-- A world: the engine plus its ambient effects — the stream of future
clock readings and the log of file writes performed so far. -/
structure World where
  engine : EngineState
  clock : List Rat
  files : List FileWrite
deriving DecidableEq

/-- Modelled from the spec: `RandomProbabilitySource.sample(beta)` returns
a probability in (0,1); the sampler is a compiled collaborator not in the
inspected sources.  One draw is consumed from the stream per recurrence
step; an exhausted stream yields the default 1/2. -/
def drawProb (rng : List Rat) : Rat := rng.headD (1 / 2)

/-- Modelled from the spec: the index range updated by one recurrence
step — "every array entry whose index is newly valid at time+1", with the
valid range `n ≤ 2·time` of §3, clipped to the allocated array. -/
def updateBound (time tMax : Nat) : Nat := min (2 * (time + 1)) tMax

/-- Modelled from the spec: the triangular recurrence update of the
compiled kernel, which is not in the inspected sources.  Per §4.1 each
updated cell combines its predecessor values from the previous time row
weighted by the drawn probability and its complement; with the position
convention `x = 2n + 2 - t` the predecessors of cell `n` are cells
`n - 1` and `n`, and the value left of the array is 0. -/
def kernelUpdate (p : Rat) (time tMax : Nat) (old : List Rat) : List Rat :=
  (List.range (tMax + 1)).map fun n =>
    if n ≤ updateBound time tMax then
      p * (if n = 0 then 0 else old.getD (n - 1) 0) + (1 - p) * old.getD n 0
    else
      old.getD n 0

/-- Modelled from the spec: one step of the compiled kernel
(`diffusionCDF.DiffusionTimeCDF.iterateTimeStep`): draw one transition
probability, apply the recurrence update, increment `time`. -/
def kernelStep (e : EngineState) : EngineState :=
  { e with
    time := e.time + 1
    cdf := kernelUpdate (drawProb e.rng) e.time e.tMax e.cdf
    rng := e.rng.tail }

/-- Modelled from the spec: `getSaveCDF()` returns only the valid prefix
of the array (§4.1); `fromFiles` loads the saved values into indices
`[0, time]`, so the prefix has length `time + 1`. -/
def getSaveCDF (e : EngineState) : List Rat := e.cdf.take (e.time + 1)

/-- Python string interpolation of the `id` attribute: `None` renders as
`"None"`, an integer as its decimal form. -/
def formatId : Option Int → String
  | none => "None"
  | some i => toString i

/-- `os.path.join(save_dir, name)` for a relative `name`. -/
def joinPath (dir fname : String) : String := dir ++ "/" ++ fname

/-- The scalars record `saveState` serialises. -/
def scalarsOf (e : EngineState) : Scalars :=
  ⟨e.time, e.beta, e.tMax, e.id, e.saveDir⟩

/-- `saveState()` from the source: writes `CDF{id}.txt` holding the
valid-prefix CDF and `Scalars{id}.json` holding the metadata record.
The source performs no check on `id`: an unset `id` is interpolated into
the file names as `"None"`. -/
def saveState (e : EngineState) : List FileWrite :=
  [ ⟨joinPath e.saveDir ("CDF" ++ formatId e.id ++ ".txt"),
      FileData.cdfData (getSaveCDF e)⟩,
    ⟨joinPath e.saveDir ("Scalars" ++ formatId e.id ++ ".json"),
      FileData.scalarsData (scalarsOf e)⟩ ]

/-- The autosave throttle at the top of `iterateTimeStep()`: if the clock
reading minus `_last_saved_time` exceeds `_save_interval`, call
`saveState()` and reset `_last_saved_time` to a fresh clock reading. -/
def autosave (w : World) : World :=
  if w.clock.headD 0 - w.engine.lastSavedTime > w.engine.saveInterval then
    { engine := { w.engine with lastSavedTime := w.clock.tail.headD 0 }
      clock := w.clock.tail.tail
      files := w.files ++ saveState w.engine }
  else
    { w with clock := w.clock.tail }

/-- `iterateTimeStep()` from the source: first the autosave throttle, then
the capacity check raising at `time ≥ tMax`, then the kernel step. -/
def iterateTimeStep (w : World) : Option EngineError × World :=
  let w1 := autosave w
  if w1.engine.time ≥ w1.engine.tMax then
    (some EngineError.capacityExceeded, w1)
  else
    (none, { w1 with engine := kernelStep w1.engine })

/-- `evolveToTime(time)` from the source: `while self.time < time:
self.iterateTimeStep()`; a raised error propagates out of the loop. -/
def evolveToTime (t : Nat) (w : World) : Option EngineError × World :=
  if hlt : w.engine.time < t then
    if hok : (iterateTimeStep w).1 = none then
      evolveToTime t (iterateTimeStep w).2
    else
      iterateTimeStep w
  else
    (none, w)
termination_by t - w.engine.time
decreasing_by
  have ht : (autosave w).engine.time = w.engine.time := by
    unfold autosave; split <;> rfl
  simp only [iterateTimeStep] at hok ⊢
  split at hok
  · simp at hok
  · rename_i hc
    rw [if_neg hc]
    simp only [kernelStep]
    omega

/-- `evolveTimesteps(num)` from the source: `for _ in range(num):
self.iterateTimeStep()`; a raised error propagates out of the loop. -/
def evolveTimesteps : Nat → World → Option EngineError × World
  | 0, w => (none, w)
  | n + 1, w =>
    if (iterateTimeStep w).1 = none then
      evolveTimesteps n (iterateTimeStep w).2
    else
      iterateTimeStep w

/-- Reference behaviour: `n` sequential `iterateTimeStep()` calls,
stopping when a call raises. -/
def iterCalls : Nat → World → Option EngineError × World
  | 0, w => (none, w)
  | n + 1, w =>
    if (iterateTimeStep w).1 = none then
      iterCalls n (iterateTimeStep w).2
    else
      iterateTimeStep w

/-- `construct(beta, tMax)` plus the wrapper `__init__`: zero-filled array
of length `tMax + 1`, `time = 0`, `id = None`, `save_dir = "."`,
`_last_saved_time` read from the clock, `_save_interval = 3600 * 6`. -/
def freshEngine (beta : Rat) (tMax : Nat) (now : Rat) (rng : List Rat) :
    EngineState :=
  { beta := beta
    tMax := tMax
    time := 0
    cdf := List.replicate (tMax + 1) 0
    id := none
    saveDir := "."
    lastSavedTime := now
    saveInterval := 3600 * 6
    rng := rng }

/-- A freshly constructed engine in a world: construction consumes one
clock reading for `_last_saved_time`; no files written yet. -/
def freshWorld (beta : Rat) (tMax : Nat) (clock : List Rat)
    (rng : List Rat) : World :=
  { engine := freshEngine beta tMax (clock.headD 0) rng
    clock := clock.tail
    files := [] }

/-- `fromFiles(cdf_file, scalars_file)` from the source: load the scalars
record, allocate a `tMax + 1` zero array, assign the saved values to the
slice `[0, time]` (the numpy slice assignment requires the saved length
to agree with `time + 1` — a mismatched file is rejected), construct a
fresh engine with the loaded `beta` and `tMax`, then set `time`, `id`,
`save_dir` and the array.  Construction reads the clock once and reseeds
the random source. -/
def fromFiles (cdfValues : List Rat) (vars : Scalars) (now : Rat)
    (rng : List Rat) : Option EngineState :=
  if cdfValues.length = vars.time + 1 ∧ vars.time ≤ vars.tMax then
    some { freshEngine vars.beta vars.tMax now rng with
            time := vars.time
            id := vars.id
            saveDir := vars.saveDir
            cdf := cdfValues ++ List.replicate (vars.tMax - vars.time) 0 }
  else
    none

/-- Modelled from the spec: the compiled `findQuantile` sweep is not in
the inspected sources.  Per §4.2 it returns the position where the
complementary quantity first falls at or below `1/quantile`; the sweep
index is converted to a spatial position by the source's documented
relation `x = 2n + 2 - t`.  This is the sweep-index part. -/
def findQuantileN (e : EngineState) (q : Rat) : Nat :=
  e.cdf.findIdx fun z => z ≤ 1 / q

/-- `findQuantile(quantile)`: the spatial position of the quantile,
via `x = 2n + 2 - t` (source docstring). -/
def findQuantile (e : EngineState) (q : Rat) : Int :=
  2 * (findQuantileN e q : Int) + 2 - (e.time : Int)

/-- Descending sort used by the batched search. -/
def sortDescending (l : List Rat) : List Rat :=
  List.insertionSort (fun a b => b ≤ a) l

/-- Modelled from the spec: the compiled batched `findQuantiles` is not in
the inspected sources.  Per §4.2 it resolves all quantiles in one
descending monotonic sweep: the quantiles are put in descending order and
each is resolved as in `findQuantile`, results reported in sweep
(descending-quantile) order. -/
def findQuantilesKernel (e : EngineState) (qs : List Rat) : List Int :=
  (sortDescending qs).map (findQuantile e)

/-- `findQuantiles(quantiles, descending=False)` from the source: pass the
list to the compiled batched search; if the caller's list is not in
descending order, reverse the returned positions. -/
def findQuantiles (e : EngineState) (qs : List Rat) (descending : Bool) :
    List Int :=
  if descending then findQuantilesKernel e qs
  else (findQuantilesKernel e qs).reverse

instance : IsTotal Rat fun a b => b ≤ a := ⟨fun a b => le_total b a⟩

instance : IsTrans Rat fun a b => b ≤ a :=
  ⟨fun _ _ _ h1 h2 => le_trans h2 h1⟩

instance : IsAntisymm Rat fun a b => b ≤ a :=
  ⟨fun _ _ h1 h2 => le_antisymm h2 h1⟩

/-- Modelled from the spec: the compiled `getGumbelVariance` estimator is
not in the inspected sources; the spec states only that it is a pure
function of the current CDF snapshot and the requested particle counts
(§4.3).  Modelled as the CDF value at each count's quantile position. -/
def getGumbelVariance (e : EngineState) (nParticles : List Rat) :
    List Rat :=
  nParticles.map fun N => e.cdf.getD (findQuantileN e N) 0

/-- Modelled from the spec: the compiled `getProbandV` is not in the
inspected sources.  Per §4.3 it locates the position where the
probability first crosses `1/quantile` and returns the probability there
together with `velocity = position / time`. -/
def getProbandV (e : EngineState) (q : Rat) : Rat × Rat :=
  let n := findQuantileN e q
  (e.cdf.getD n 0,
    (2 * (n : Rat) + 2 - (e.time : Rat)) / (e.time : Rat))

/-- A CSV file handle: rows already forced to durable storage, and rows
still sitting in the userspace buffer (lost if the process crashes). -/
structure CsvFile where
  flushed : List (List String)
  buffer : List (List String)
deriving DecidableEq

/-- `writer.writerow(row)`: appends to the buffer only. -/
def writeRow (f : CsvFile) (row : List String) : CsvFile :=
  { f with buffer := f.buffer ++ [row] }

/-- `f.flush()`: forces the buffer to durable storage. -/
def flushFile (f : CsvFile) : CsvFile :=
  { flushed := f.flushed ++ f.buffer, buffer := [] }

/-- `f.close()`: flushes any remaining buffered rows. -/
def closeFile (f : CsvFile) : CsvFile := flushFile f

/-- One iteration of the `evolveAndGetVariance` time loop (source):
evolve to `t`, compute the Gumbel variances and the quantile positions,
write the row, flush.  A raised evolve error propagates (no row). -/
def varianceStep (nParticles : List Rat) (st : World × CsvFile) (t : Nat) :
    (World × CsvFile) × Option EngineError :=
  match evolveToTime t st.1 with
  | (some e, w) => ((w, st.2), some e)
  | (none, w) =>
    let discrete := getGumbelVariance w.engine nParticles
    let qs := findQuantiles w.engine nParticles false
    let row := toString w.engine.time ::
      (qs.map toString ++ discrete.map toString)
    ((w, flushFile (writeRow st.2 row)), none)

/-- One iteration of the `evolveAndSaveQuantile` time loop (source):
evolve to `t`, sort the quantiles into descending order, look up the
positions, write the row.  There is no flush in this loop body. -/
def quantileStep (quantiles : List Rat) (st : World × CsvFile) (t : Nat) :
    (World × CsvFile) × Option EngineError :=
  match evolveToTime t st.1 with
  | (some e, w) => ((w, st.2), some e)
  | (none, w) =>
    let sorted :=
      (List.insertionSort (fun a b : Rat => a ≤ b) quantiles).reverse
    let positions := findQuantiles w.engine sorted false
    let row := toString w.engine.time :: positions.map toString
    ((w, writeRow st.2 row), none)

/-- One iteration of the `evolveAndGetProbAndV` time loop (source):
evolve to `t`, measure probability and velocity, write the row, flush. -/
def probVStep (q : Rat) (st : World × CsvFile) (t : Nat) :
    (World × CsvFile) × Option EngineError :=
  match evolveToTime t st.1 with
  | (some e, w) => ((w, st.2), some e)
  | (none, w) =>
    let pv := getProbandV w.engine q
    let row := [toString w.engine.time, toString pv.1, toString pv.2]
    ((w, flushFile (writeRow st.2 row)), none)

/-- Runs a loop body over the list of target times, stopping at the first
raised error (which propagates, skipping the remaining iterations). -/
def runSteps
    (step : World × CsvFile → Nat → (World × CsvFile) × Option EngineError) :
    List Nat → World × CsvFile → (World × CsvFile) × Option EngineError
  | [], st => (st, none)
  | t :: ts, st =>
    match step st t with
    | (st1, none) => runSteps step ts st1
    | (st1, some e) => (st1, some e)

/-- `evolveAndGetVariance(times, nParticles, file, append)` from the
source: header row (written and flushed) unless appending, then the time
loop, then close.  On a raised error the file is not closed. -/
def evolveAndGetVariance (times : List Nat) (nParticles : List Rat)
    (append : Bool) (w : World) (f : CsvFile) :
    (World × CsvFile) × Option EngineError :=
  let f1 :=
    if append then f
    else
      flushFile (writeRow f ("time" :: (nParticles.map toString ++
        nParticles.map fun N => "var" ++ toString N)))
  match runSteps (varianceStep nParticles) times (w, f1) with
  | (st, none) => ((st.1, closeFile st.2), none)
  | (st, some e) => (st, some e)

/-- `evolveAndSaveQuantile(time, quantiles, file, append)` from the
source: header row (written, not flushed) unless appending, then the time
loop (no flush per row), then close.  On a raised error the file is not
closed. -/
def evolveAndSaveQuantile (times : List Nat) (quantiles : List Rat)
    (append : Bool) (w : World) (f : CsvFile) :
    (World × CsvFile) × Option EngineError :=
  let f1 :=
    if append then f
    else writeRow f ("time" :: quantiles.map toString)
  match runSteps (quantileStep quantiles) times (w, f1) with
  | (st, none) => ((st.1, closeFile st.2), none)
  | (st, some e) => (st, some e)

/-- `evolveAndGetProbAndV(quantile, time, save_file)` from the source:
asserts `quantile ≥ 1`, always writes the header (not flushed), then the
time loop (each row flushed), then close. -/
def evolveAndGetProbAndV (q : Rat) (times : List Nat) (w : World)
    (f : CsvFile) : (World × CsvFile) × Option EngineError :=
  if 1 ≤ q then
    let f1 := writeRow f ["time", "prob", "v"]
    match runSteps (probVStep q) times (w, f1) with
    | (st, none) => ((st.1, closeFile st.2), none)
    | (st, some e) => (st, some e)
  else
    ((w, f), some EngineError.assertionFailed)

/-- Worlds reachable from `w₀` by any sequence of `iterateTimeStep()`
calls (failing calls included: a raised error leaves the mutated world). -/
inductive Reaches : World → World → Prop
  | refl (w : World) : Reaches w w
  | step {w₁ w₂ : World} (h : Reaches w₁ w₂) :
      Reaches w₁ (iterateTimeStep w₂).2

/-- All array reads (in and beyond range) are non-negative. -/
def nonnegCDF (l : List Rat) : Prop := ∀ n, 0 ≤ l.getD n 0

/-- The array is non-decreasing across the whole allocation. -/
def monoCDF (tMax : Nat) (l : List Rat) : Prop :=
  ∀ n, n + 1 ≤ tMax → l.getD n 0 ≤ l.getD (n + 1) 0

/-- The random-source collaborator contract: every draw is a probability
(§6: `sample(beta) → probability in (0,1)`). -/
def boundedRng (l : List Rat) : Prop := ∀ p ∈ l, 0 ≤ p ∧ p ≤ 1

/-- The inductive invariant carried across steps. -/
def engineInv (e : EngineState) : Prop :=
  nonnegCDF e.cdf ∧ monoCDF e.tMax e.cdf ∧ boundedRng e.rng

/-- The claimed monotonicity on the valid index range `n ≤ 2·time`
(clipped to the allocation). -/
def monoOnValidRange (e : EngineState) : Prop :=
  ∀ n, n + 1 ≤ min (2 * e.time) e.tMax →
    e.cdf.getD n 0 ≤ e.cdf.getD (n + 1) 0

/-- Concrete engine used as witness input for the checkpoint claims. -/
def exEngine3 : EngineState :=
  { beta := 1
    tMax := 1
    time := 1
    cdf := [1/4, 1/2]
    id := some 7
    saveDir := "."
    lastSavedTime := 0
    saveInterval := 21600
    rng := [] }

/-- Concrete world (at capacity, save interval elapsed) used as witness
input for the save-before-capacity claim. -/
def exWorld10 : World :=
  { engine :=
      { beta := 1
        tMax := 0
        time := 0
        cdf := [0]
        id := none
        saveDir := "."
        lastSavedTime := 0
        saveInterval := 1
        rng := [] }
    clock := [5, 6]
    files := [] }

theorem autosave_time (w : World) :
    (autosave w).engine.time = w.engine.time := by
  unfold autosave; split <;> rfl

theorem autosave_tMax (w : World) :
    (autosave w).engine.tMax = w.engine.tMax := by
  unfold autosave; split <;> rfl

theorem autosave_cdf (w : World) :
    (autosave w).engine.cdf = w.engine.cdf := by
  unfold autosave; split <;> rfl

theorem autosave_rng (w : World) :
    (autosave w).engine.rng = w.engine.rng := by
  unfold autosave; split <;> rfl

theorem autosave_files (w : World) :
    (autosave w).files =
      if w.clock.headD 0 - w.engine.lastSavedTime > w.engine.saveInterval
      then w.files ++ saveState w.engine else w.files := by
  unfold autosave; split <;> simp_all

theorem autosave_lastSavedTime (w : World) :
    (autosave w).engine.lastSavedTime =
      if w.clock.headD 0 - w.engine.lastSavedTime > w.engine.saveInterval
      then w.clock.tail.headD 0 else w.engine.lastSavedTime := by
  unfold autosave; split <;> simp_all

theorem iterateTimeStep_tMax (w : World) :
    (iterateTimeStep w).2.engine.tMax = w.engine.tMax := by
  simp only [iterateTimeStep]
  split <;> simp [kernelStep, autosave_tMax]

theorem iterateTimeStep_err_iff (w : World) :
    (iterateTimeStep w).1 = none ↔ w.engine.time < w.engine.tMax := by
  simp only [iterateTimeStep]
  split <;> rename_i hc <;> rw [autosave_time, autosave_tMax] at hc <;>
    simp <;> omega

theorem iterateTimeStep_ok_time (w : World)
    (h : (iterateTimeStep w).1 = none) :
    (iterateTimeStep w).2.engine.time = w.engine.time + 1 := by
  simp only [iterateTimeStep] at h ⊢
  split at h <;> rename_i hc
  · simp at h
  · rw [if_neg hc]
    simp [kernelStep, autosave_time]

/-- `evolveToTime` returns immediately when the loop guard fails. -/
theorem evolveToTime_stop (t : Nat) (w : World)
    (h : ¬ w.engine.time < t) : evolveToTime t w = (none, w) := by
  rw [evolveToTime]
  simp [h]

theorem evolveToTime_eq_iterCalls_general (k : Nat) :
    ∀ w : World, w.engine.time + k ≤ w.engine.tMax →
      evolveToTime (w.engine.time + k) w = iterCalls k w := by
  induction k with
  | zero =>
    intro w _
    rw [evolveToTime]
    simp [iterCalls]
  | succ k ih =>
    intro w h
    have hlt : w.engine.time < w.engine.time + (k + 1) := by omega
    have hcap : w.engine.time < w.engine.tMax := by omega
    have hok : (iterateTimeStep w).1 = none :=
      (iterateTimeStep_err_iff w).mpr hcap
    have ht : (iterateTimeStep w).2.engine.time = w.engine.time + 1 :=
      iterateTimeStep_ok_time w hok
    rw [evolveToTime, dif_pos hlt, dif_pos hok]
    have harg : w.engine.time + (k + 1) =
        (iterateTimeStep w).2.engine.time + k := by omega
    rw [harg, ih _ (by rw [ht, iterateTimeStep_tMax]; omega)]
    rw [iterCalls]
    simp [hok]

/-- C1: at `time == tMax`, `iterateTimeStep()` raises the at-capacity
error before any array write: afterwards `time` still equals `tMax` and
the CDF array is unchanged. -/
theorem iterate_at_capacity (w : World)
    (h : w.engine.time = w.engine.tMax) :
    (iterateTimeStep w).1 = some EngineError.capacityExceeded ∧
    (iterateTimeStep w).2.engine.time = w.engine.tMax ∧
    (iterateTimeStep w).2.engine.cdf = w.engine.cdf := by
  simp only [iterateTimeStep]
  split <;> rename_i hc <;> rw [autosave_time, autosave_tMax] at hc
  · exact ⟨rfl, by rw [autosave_time, h], by rw [autosave_cdf]⟩
  · exact absurd (ge_of_eq (h.symm ▸ rfl)) hc

theorem iterate_at_capacity_witness :
    (freshWorld 1 0 [] []).engine.time = (freshWorld 1 0 [] []).engine.tMax ∧
    ((iterateTimeStep (freshWorld 1 0 [] [])).1 =
        some EngineError.capacityExceeded ∧
      (iterateTimeStep (freshWorld 1 0 [] [])).2.engine.time =
        (freshWorld 1 0 [] []).engine.tMax ∧
      (iterateTimeStep (freshWorld 1 0 [] [])).2.engine.cdf =
        (freshWorld 1 0 [] []).engine.cdf) :=
  ⟨rfl, iterate_at_capacity (freshWorld 1 0 [] []) rfl⟩

/-- C2: from a fresh engine (`time = 0`) and `0 < t ≤ tMax`,
`evolveToTime(t)` yields exactly the state of `t` sequential
`iterateTimeStep()` calls (same `time`, CDF, random-source state, clock
and files); and `evolveTimesteps(n)` equals `n` sequential calls. -/
theorem evolve_refines_iterate :
    (∀ (w : World) (t : Nat), w.engine.time = 0 → 0 < t →
        t ≤ w.engine.tMax → evolveToTime t w = iterCalls t w) ∧
    (∀ (n : Nat) (w : World), evolveTimesteps n w = iterCalls n w) := by
  constructor
  · intro w t h0 _ hle
    have := evolveToTime_eq_iterCalls_general t w (by omega)
    rwa [h0, Nat.zero_add] at this
  · intro n
    induction n with
    | zero => intro w; rfl
    | succ n ih =>
      intro w
      rw [evolveTimesteps, iterCalls]
      split <;> simp [ih]

theorem evolve_refines_iterate_witness :
    (freshWorld 1 2 [] []).engine.time = 0 ∧ 0 < 1 ∧
      1 ≤ (freshWorld 1 2 [] []).engine.tMax ∧
      evolveToTime 1 (freshWorld 1 2 [] []) =
        iterCalls 1 (freshWorld 1 2 [] []) :=
  ⟨rfl, Nat.one_pos, by decide,
    evolve_refines_iterate.1 (freshWorld 1 2 [] []) 1 rfl Nat.one_pos
      (by decide)⟩

/-- C9: a target `t` at or below the current time makes `evolveToTime(t)`
a no-op: no step is taken, no error is raised, and the whole world
(engine, clock, file log) is returned unchanged. -/
theorem evolveToTime_noop (t : Nat) (w : World)
    (h : t ≤ w.engine.time) : evolveToTime t w = (none, w) :=
  evolveToTime_stop t w (Nat.not_lt.mpr h)

theorem evolveToTime_noop_witness :
    0 ≤ (freshWorld 1 3 [] []).engine.time ∧
      evolveToTime 0 (freshWorld 1 3 [] []) = (none, freshWorld 1 3 [] []) :=
  ⟨Nat.zero_le _, evolveToTime_noop 0 (freshWorld 1 3 [] []) (Nat.zero_le _)⟩

theorem getD_replicate_zero (k m : Nat) :
    (List.replicate k (0 : Rat)).getD m 0 = 0 := by
  rcases lt_or_le m k with h | h
  · simp [List.getD_eq_getElem?_getD, List.getElem?_replicate, h]
  · simp [List.getD_eq_getElem?_getD, List.getElem?_replicate,
      Nat.not_lt.mpr h]

/-- C3: checkpoint round-trip.  `saveState()` writes exactly the
valid-prefix CDF and the scalars record, and `fromFiles` applied to those
two payloads reconstructs a state equal to the original in `time`,
`beta`, `tMax`, `id`, `saveDir` and every CDF entry at indices
`0..time`, with zeros past `time`. -/
theorem saveState_fromFiles_roundTrip (e : EngineState) (i : Int)
    (hid : e.id = some i) (hlen : e.cdf.length = e.tMax + 1)
    (ht : e.time ≤ e.tMax) (now : Rat) (rng : List Rat) :
    (saveState e).map FileWrite.data =
      [FileData.cdfData (getSaveCDF e),
        FileData.scalarsData (scalarsOf e)] ∧
    ∃ e' : EngineState,
      fromFiles (getSaveCDF e) (scalarsOf e) now rng = some e' ∧
      e'.time = e.time ∧ e'.beta = e.beta ∧ e'.tMax = e.tMax ∧
      e'.id = e.id ∧ e'.saveDir = e.saveDir ∧
      (∀ n, n ≤ e.time → e'.cdf.getD n 0 = e.cdf.getD n 0) ∧
      (∀ n, e.time < n → e'.cdf.getD n 0 = 0) := by
  have hsave : (getSaveCDF e).length = e.time + 1 := by
    simp only [getSaveCDF, List.length_take, hlen]
    omega
  refine ⟨rfl, ?_⟩
  rw [fromFiles, if_pos ⟨hsave, ht⟩]
  refine ⟨_, rfl, rfl, rfl, rfl, rfl, rfl, ?_, ?_⟩
  · intro n hn
    have hn' : n < (getSaveCDF e).length := by omega
    rw [List.getD_append _ _ _ _ hn']
    simp [getSaveCDF, List.getD_eq_getElem?_getD, List.getElem?_take,
      Nat.lt_succ_of_le hn]
  · intro n hn
    have hn' : (getSaveCDF e).length ≤ n := by omega
    rw [List.getD_append_right _ _ _ _ hn']
    exact getD_replicate_zero _ _

theorem saveState_fromFiles_roundTrip_witness :
    exEngine3.id = some 7 ∧
    exEngine3.cdf.length = exEngine3.tMax + 1 ∧
    exEngine3.time ≤ exEngine3.tMax ∧
    ((saveState exEngine3).map FileWrite.data =
      [FileData.cdfData (getSaveCDF exEngine3),
        FileData.scalarsData (scalarsOf exEngine3)] ∧
    ∃ e' : EngineState,
      fromFiles (getSaveCDF exEngine3) (scalarsOf exEngine3) 3 [] =
        some e' ∧
      e'.time = exEngine3.time ∧ e'.beta = exEngine3.beta ∧
      e'.tMax = exEngine3.tMax ∧ e'.id = exEngine3.id ∧
      e'.saveDir = exEngine3.saveDir ∧
      (∀ n, n ≤ exEngine3.time →
        e'.cdf.getD n 0 = exEngine3.cdf.getD n 0) ∧
      (∀ n, exEngine3.time < n → e'.cdf.getD n 0 = 0)) :=
  ⟨rfl, rfl, by decide,
    saveState_fromFiles_roundTrip exEngine3 7 rfl rfl (by decide) 3 []⟩

/-- C5 counterexample: a concrete engine state with `id` unset on which
`saveState()` does not fail and does not write nothing — it performs two
file writes. -/
theorem saveState_unset_id_counterexample :
    (freshEngine 1 0 0 []).id = none ∧
      saveState (freshEngine 1 0 0 []) ≠ [] ∧
      (saveState (freshEngine 1 0 0 [])).length = 2 := by
  refine ⟨rfl, ?_, rfl⟩
  simp [saveState]

/-- C5 amended: `saveState()` does not require `id` to be set: with `id`
unset it does not fail and writes the two checkpoint files
`CDFNone.txt` and `ScalarsNone.json` (the unset id rendered literally
into the names), the scalars record carrying the unset id. -/
theorem saveState_unset_id (e : EngineState) (h : e.id = none) :
    saveState e =
      [ ⟨joinPath e.saveDir "CDFNone.txt",
          FileData.cdfData (getSaveCDF e)⟩,
        ⟨joinPath e.saveDir "ScalarsNone.json",
          FileData.scalarsData (scalarsOf e)⟩ ] := by
  simp [saveState, h, formatId]

theorem saveState_unset_id_witness :
    (freshEngine 1 0 0 []).id = none ∧
      saveState (freshEngine 1 0 0 []) =
        [ ⟨joinPath "." "CDFNone.txt",
            FileData.cdfData (getSaveCDF (freshEngine 1 0 0 []))⟩,
          ⟨joinPath "." "ScalarsNone.json",
            FileData.scalarsData (scalarsOf (freshEngine 1 0 0 []))⟩ ] :=
  ⟨rfl, saveState_unset_id (freshEngine 1 0 0 []) rfl⟩

/-- C6: the autosave throttle of `iterateTimeStep()`: exactly when the
clock reading minus `lastSavedTime` exceeds `saveInterval`, the state is
checkpointed via `saveState()` and `lastSavedTime` is reset to a fresh
clock reading; in either case the step proper then proceeds (capacity
check, then the kernel update advancing `time`). -/
theorem iterate_throttle_policy (w : World) :
    ((iterateTimeStep w).2.files =
      if w.clock.headD 0 - w.engine.lastSavedTime > w.engine.saveInterval
      then w.files ++ saveState w.engine else w.files) ∧
    ((iterateTimeStep w).2.engine.lastSavedTime =
      if w.clock.headD 0 - w.engine.lastSavedTime > w.engine.saveInterval
      then w.clock.tail.headD 0 else w.engine.lastSavedTime) ∧
    ((iterateTimeStep w).1 =
      if w.engine.time ≥ w.engine.tMax
      then some EngineError.capacityExceeded else none) ∧
    ((iterateTimeStep w).2.engine.time =
      if w.engine.time ≥ w.engine.tMax
      then w.engine.time else w.engine.time + 1) := by
  have hf := autosave_files w
  have hl := autosave_lastSavedTime w
  have htt := autosave_time w
  simp only [iterateTimeStep]
  split <;> rename_i hc <;> rw [autosave_time, autosave_tMax] at hc
  · refine ⟨hf, hl, ?_, ?_⟩
    · rw [if_pos hc]
    · rw [if_pos hc]; exact htt
  · refine ⟨hf, hl, ?_, ?_⟩
    · rw [if_neg hc]
    · rw [if_neg hc]
      simp [kernelStep, htt]

/-- C10: when the save interval has elapsed and `time == tMax`, the call
writes both checkpoint files via `saveState()` and then raises the
at-capacity error: the checkpoint side effect occurs even though the
step itself fails. -/
theorem iterate_save_before_capacity (w : World)
    (hcap : w.engine.time = w.engine.tMax)
    (hsave :
      w.clock.headD 0 - w.engine.lastSavedTime > w.engine.saveInterval) :
    (iterateTimeStep w).1 = some EngineError.capacityExceeded ∧
    (iterateTimeStep w).2.files = w.files ++ saveState w.engine ∧
    (saveState w.engine).length = 2 := by
  have hf := autosave_files w
  rw [if_pos hsave] at hf
  simp only [iterateTimeStep]
  split <;> rename_i hc <;> rw [autosave_time, autosave_tMax] at hc
  · exact ⟨rfl, hf, rfl⟩
  · exact absurd (ge_of_eq (hcap.symm ▸ rfl)) hc

theorem iterate_save_before_capacity_witness :
    exWorld10.engine.time = exWorld10.engine.tMax ∧
      exWorld10.clock.headD 0 - exWorld10.engine.lastSavedTime >
        exWorld10.engine.saveInterval ∧
      ((iterateTimeStep exWorld10).1 = some EngineError.capacityExceeded ∧
        (iterateTimeStep exWorld10).2.files =
          exWorld10.files ++ saveState exWorld10.engine ∧
        (saveState exWorld10.engine).length = 2) :=
  ⟨rfl, by norm_num [exWorld10],
    iterate_save_before_capacity exWorld10 rfl (by norm_num [exWorld10])⟩

/-- A strictly ascending list, reversed, is sorted for the descending
order used by the batched search. -/
theorem sorted_reverse_of_ascending (qs : List Rat)
    (hs : List.Sorted (· < ·) qs) :
    List.Sorted (fun a b : Rat => b ≤ a) qs.reverse := by
  rw [List.Sorted, List.pairwise_reverse]
  exact hs.imp fun hab => le_of_lt hab

theorem sortDescending_of_ascending (qs : List Rat)
    (hs : List.Sorted (· < ·) qs) : sortDescending qs = qs.reverse :=
  List.eq_of_perm_of_sorted
    ((List.perm_insertionSort _ qs).trans qs.reverse_perm.symm)
    (List.sorted_insertionSort _ qs)
    (sorted_reverse_of_ascending qs hs)

/-- C4: for quantiles given in strictly ascending order with
`descending = false`, the batched `findQuantiles` returns the positions
in input order, each equal to the per-call `findQuantile` result. -/
theorem findQuantiles_ascending (e : EngineState) (qs : List Rat)
    (hs : List.Sorted (· < ·) qs) :
    findQuantiles e qs false = qs.map (findQuantile e) := by
  have heq := sortDescending_of_ascending qs hs
  simp [findQuantiles, findQuantilesKernel, heq, List.map_reverse]

theorem findQuantiles_ascending_witness :
    List.Sorted (· < ·) [(2 : Rat), 3] ∧
      findQuantiles exEngine3 [2, 3] false =
        [(2 : Rat), 3].map (findQuantile exEngine3) :=
  ⟨by norm_num [List.sorted_cons],
    findQuantiles_ascending exEngine3 [2, 3]
      (by norm_num [List.sorted_cons])⟩

/-- C7 counterexample: one iteration of the `evolveAndSaveQuantile` time
loop on a concrete input leaves the freshly written row in the userspace
buffer — it is not flushed immediately after being written, so a crash
at this point loses it. -/
theorem quantile_row_not_flushed_counterexample :
    ((quantileStep [2] (freshWorld 1 3 [] [], ⟨[], []⟩) 0).1.2).buffer ≠
      [] := by
  have h0 : evolveToTime 0 (freshWorld 1 3 [] []) =
      (none, freshWorld 1 3 [] []) :=
    evolveToTime_stop 0 (freshWorld 1 3 [] []) (by omega)
  simp [quantileStep, h0, writeRow]

/-- C7 amended: `evolveAndGetVariance` and `evolveAndGetProbAndV` flush
each row immediately after writing it (the buffer is empty after every
loop iteration), but `evolveAndSaveQuantile` never flushes inside its
loop (its iterations force nothing to durable storage), so a crash
mid-run can lose every row written since the file was opened. -/
theorem csv_row_flush_amended :
    (∀ (nP : List Rat) (st : World × CsvFile) (t : Nat),
        st.2.buffer = [] → ((varianceStep nP st t).1.2).buffer = []) ∧
    (∀ (q : Rat) (st : World × CsvFile) (t : Nat),
        st.2.buffer = [] → ((probVStep q st t).1.2).buffer = []) ∧
    (∀ (qs : List Rat) (st : World × CsvFile) (t : Nat),
        ((quantileStep qs st t).1.2).flushed = st.2.flushed) := by
  refine ⟨?_, ?_, ?_⟩
  · intro nP st t hb
    unfold varianceStep
    rcases h : evolveToTime t st.1 with ⟨err, w⟩
    cases err <;> simp [flushFile, hb]
  · intro q st t hb
    unfold probVStep
    rcases h : evolveToTime t st.1 with ⟨err, w⟩
    cases err <;> simp [flushFile, hb]
  · intro qs st t
    unfold quantileStep
    rcases h : evolveToTime t st.1 with ⟨err, w⟩
    cases err <;> simp [writeRow]

theorem csv_row_flush_amended_witness :
    ((freshWorld 1 3 [] [], (⟨[], []⟩ : CsvFile)).2.buffer = [] ∧
      ((varianceStep [] (freshWorld 1 3 [] [], ⟨[], []⟩) 0).1.2).buffer =
        []) ∧
    ((freshWorld 1 3 [] [], (⟨[], []⟩ : CsvFile)).2.buffer = [] ∧
      ((probVStep 2 (freshWorld 1 3 [] [], ⟨[], []⟩) 0).1.2).buffer =
        []) :=
  ⟨⟨rfl, csv_row_flush_amended.1 [] (freshWorld 1 3 [] [], ⟨[], []⟩) 0 rfl⟩,
    ⟨rfl, csv_row_flush_amended.2.1 2 (freshWorld 1 3 [] [], ⟨[], []⟩) 0
      rfl⟩⟩

theorem kernelUpdate_length (p : Rat) (time tMax : Nat) (old : List Rat) :
    (kernelUpdate p time tMax old).length = tMax + 1 := by
  simp [kernelUpdate]

theorem kernelUpdate_getD (p : Rat) (time tMax : Nat) (old : List Rat)
    (n : Nat) (hn : n ≤ tMax) :
    (kernelUpdate p time tMax old).getD n 0 =
      if n ≤ updateBound time tMax then
        p * (if n = 0 then 0 else old.getD (n - 1) 0) +
          (1 - p) * old.getD n 0
      else old.getD n 0 := by
  unfold kernelUpdate
  rw [List.getD_eq_getElem?_getD, List.getElem?_map,
    List.getElem?_range (by omega : n < tMax + 1)]
  simp

theorem kernelUpdate_nonneg {p : Rat} (hp0 : 0 ≤ p) (hp1 : p ≤ 1)
    (time tMax : Nat) {old : List Rat} (h : nonnegCDF old) :
    nonnegCDF (kernelUpdate p time tMax old) := by
  intro n
  rcases le_or_lt n tMax with hn | hn
  · rw [kernelUpdate_getD p time tMax old n hn]
    split
    · have h1 : 0 ≤ (if n = 0 then (0 : Rat) else old.getD (n - 1) 0) := by
        split
        · exact le_refl 0
        · exact h _
      have h2 := h n
      nlinarith
    · exact h n
  · rw [List.getD_eq_default]
    rw [kernelUpdate_length]
    omega

theorem kernelUpdate_mono {p : Rat} (hp0 : 0 ≤ p) (hp1 : p ≤ 1)
    (time tMax : Nat) {old : List Rat} (hnn : nonnegCDF old)
    (hm : monoCDF tMax old) :
    monoCDF tMax (kernelUpdate p time tMax old) := by
  intro n hn1
  rw [kernelUpdate_getD p time tMax old n (by omega),
    kernelUpdate_getD p time tMax old (n + 1) hn1]
  have hb := hm n hn1
  rcases le_or_lt (n + 1) (updateBound time tMax) with hU1 | hU1
  · rw [if_pos (show n ≤ updateBound time tMax by omega), if_pos hU1,
      if_neg (Nat.succ_ne_zero n), show n + 1 - 1 = n from rfl]
    by_cases h0 : n = 0
    · subst h0
      rw [if_pos rfl]
      have ha := hnn 0
      nlinarith
    · rw [if_neg h0]
      have ha := hm (n - 1) (by omega)
      rw [show n - 1 + 1 = n by omega] at ha
      nlinarith
  · rcases le_or_lt n (updateBound time tMax) with hU2 | hU2
    · rw [if_pos hU2,
        if_neg (show ¬ (n + 1 ≤ updateBound time tMax) by omega)]
      by_cases h0 : n = 0
      · subst h0
        rw [if_pos rfl]
        have ha := hnn 0
        nlinarith
      · rw [if_neg h0]
        have ha := hm (n - 1) (by omega)
        rw [show n - 1 + 1 = n by omega] at ha
        nlinarith
    · rw [if_neg (show ¬ (n ≤ updateBound time tMax) by omega),
        if_neg (show ¬ (n + 1 ≤ updateBound time tMax) by omega)]
      exact hb

theorem boundedRng_drawProb {rng : List Rat} (h : boundedRng rng) :
    0 ≤ drawProb rng ∧ drawProb rng ≤ 1 := by
  cases rng with
  | nil => constructor <;> norm_num [drawProb]
  | cons a l =>
    have := h a (List.mem_cons_self a l)
    simpa [drawProb] using this

theorem boundedRng_tail {rng : List Rat} (h : boundedRng rng) :
    boundedRng rng.tail := by
  intro p hp
  exact h p (List.mem_of_mem_tail hp)

theorem engineInv_kernelStep (e : EngineState) (h : engineInv e) :
    engineInv (kernelStep e) := by
  obtain ⟨h1, h2, h3⟩ := h
  obtain ⟨hp0, hp1⟩ := boundedRng_drawProb h3
  exact ⟨kernelUpdate_nonneg hp0 hp1 _ _ h1,
    kernelUpdate_mono hp0 hp1 _ _ h1 h2, boundedRng_tail h3⟩

theorem engineInv_autosave (w : World) (h : engineInv w.engine) :
    engineInv (autosave w).engine := by
  unfold autosave
  split <;> exact h

theorem engineInv_iterate (w : World) (h : engineInv w.engine) :
    engineInv (iterateTimeStep w).2.engine := by
  simp only [iterateTimeStep]
  split
  · exact engineInv_autosave w h
  · exact engineInv_kernelStep _ (engineInv_autosave w h)

theorem engineInv_reaches {w₀ w : World} (h0 : engineInv w₀.engine)
    (hr : Reaches w₀ w) : engineInv w.engine := by
  induction hr with
  | refl => exact h0
  | step _ ih => exact engineInv_iterate _ ih

theorem engineInv_fresh (beta : Rat) (tMax : Nat) (clock rng : List Rat)
    (hrng : boundedRng rng) :
    engineInv (freshWorld beta tMax clock rng).engine := by
  refine ⟨?_, ?_, hrng⟩
  · intro n
    exact ge_of_eq (getD_replicate_zero (tMax + 1) n)
  · intro n _
    rw [show (freshWorld beta tMax clock rng).engine.cdf =
      List.replicate (tMax + 1) (0 : Rat) from rfl,
      getD_replicate_zero, getD_replicate_zero]

/-- C8: from a freshly constructed engine whose random source draws
probabilities, every world reachable by `iterateTimeStep()` calls has a
CDF array that is non-decreasing over the valid index range
`n ≤ 2·time` (clipped to the allocation); each recurrence step preserves
the monotonicity invariant. -/
theorem cdf_monotone_reachable (beta : Rat) (tMax : Nat)
    (clock rng : List Rat) (hrng : boundedRng rng) (w : World)
    (hreach : Reaches (freshWorld beta tMax clock rng) w) :
    monoOnValidRange w.engine := by
  have hinv := engineInv_reaches
    (engineInv_fresh beta tMax clock rng hrng) hreach
  intro n hn
  exact hinv.2.1 n (by omega)

theorem cdf_monotone_reachable_witness :
    boundedRng [] ∧
      monoOnValidRange (iterateTimeStep (freshWorld 1 5 [] [])).2.engine :=
  ⟨by simp [boundedRng],
    cdf_monotone_reachable 1 5 [] [] (by simp [boundedRng]) _
      (Reaches.step (Reaches.refl _))⟩

end RWRE
